import Mathlib

/-!
Verification of the statement-aware SQL file editor (`internal/fs/sqlfile.go`)
and its naming / case-sensitivity resolver.

Modelling conventions:
* Go statement pointers are modelled as indices (`Nat`) into a heap of
  statement cells, so Go pointer equality is id equality and in-place
  mutation of a `*tengo.Statement` is a heap-cell update.
* Go's `-1` rune sentinel for `strings.Map` is modelled as `Option Char`.
* Filesystem effects are modelled as pure state: `stat` is an oracle
  `String → StatResult`, the disk is a map `String → Option String`.
* `tengo.Statement` methods (`NormalizeTrailer`, `SplitTextBody`) belong to
  this repository but are not among the provided sources; they are modelled
  from the spec and marked as such.
* Go `panic` (unrecoverable abort) is modelled by returning `none`.
-/

set_option maxHeartbeats 1000000

namespace Skeema

/-- Classification of a statement, as used by `sqlfile.go`: the code only
distinguishes `StatementTypeNoop`, `StatementTypeCommand`, and everything
else (data/DDL statements). -/
inductive StatementType
  | noop
  | command
  | other
deriving DecidableEq

/-- Model of `tengo.Statement`, restricted to the fields read or written by
`sqlfile.go`: `File`, `Text`, `Type`, `Delimiter`, `Compound`,
`DefaultDatabase`. -/
structure Statement where
  file : String
  text : String
  type : StatementType
  delimiter : String
  compound : Bool
  defaultDatabase : String
deriving DecidableEq

/-! ## Naming and path resolver -/

/-- Models Go `unicode.IsSpace` over the Latin-1 range (every input exercised
in this development is ASCII). -/
def isSpaceRune (c : Char) : Bool :=
  c == ' ' || c == '\t' || c == '\n' || c == Char.ofNat 11 || c == Char.ofNat 12 ||
    c == '\r' || c == Char.ofNat 0x85 || c == Char.ofNat 0xA0

/-- The fixed banned-character list of `removeSpecialChars`, written via
code points: `. \ / " ' `` : * ? | ~ # & - < > { } [ ] ( )`. -/
def bannedRunes : List Char :=
  [46, 92, 47, 34, 39, 96, 58, 42, 63, 124, 126, 35, 38, 45,
   60, 62, 123, 125, 91, 93, 40, 41].map Char.ofNat

/-- Translation of `removeSpecialChars`: Go returns the rune `-1` to drop a
rune from the output of `strings.Map`; this is modelled as `none`. -/
def removeSpecialChars (r : Char) : Option Char :=
  if isSpaceRune r then none
  else if r ∈ bannedRunes then none
  else some r

/-- Models Go `strings.Map` with a rune-dropping mapper. -/
def stringMap (f : Char → Option Char) (s : String) : String :=
  (s.toList.filterMap f).asString

/-- Translation of `NormalizeFileName` (Go `strings.ToLower`, modelled for
ASCII via `String.toLower`). -/
def normalizeFileName (name : String) (lowerCase : Bool) : String :=
  if lowerCase then name.toLower else name

/-- Translation of `FileNameForObject`. -/
def fileNameForObject (objectName : String) (lowerCase : Bool) : String :=
  let stripped := stringMap removeSpecialChars objectName
  let stripped := if stripped = "" then "symbols" else stripped
  normalizeFileName stripped lowerCase ++ ".sql"

/-- The spec's description of `FileNameForObject`, used as the refinement
target: filter out whitespace runes and banned runes, substitute the
placeholder when empty, lower-case on request, append the extension. -/
def fileNameForObjectSpec (objectName : String) (lowerCase : Bool) : String :=
  let kept := (objectName.toList.filter
    (fun r => !(isSpaceRune r || bannedRunes.contains r))).asString
  let kept := if kept = "" then "symbols" else kept
  (if lowerCase then kept.toLower else kept) ++ ".sql"

/-- Outcome of an `os.Stat` call: success (with a file identity used by
`os.SameFile`), not-found error, or any other I/O error. -/
inductive StatResult
  | found (info : Nat)
  | notFound
  | ioError
deriving DecidableEq

/-- Models `os.SameFile`: two stat results refer to the same underlying file
iff their identities (device+inode) coincide. -/
def sameFile (a b : Nat) : Bool := a == b

/-- Models Go `filepath.Base` on clean Unix-style paths. -/
def basePath (s : String) : String :=
  let r := s.toList.reverse.dropWhile (fun c => c == '/')
  if r.isEmpty then (if s.isEmpty then "." else "/")
  else (r.takeWhile (fun c => c != '/')).reverse.asString

/-- Models Go `filepath.Dir` on clean Unix-style paths. -/
def dirPath (s : String) : String :=
  let r := s.toList.reverse.dropWhile (fun c => c == '/')
  let r := (r.dropWhile (fun c => c != '/')).dropWhile (fun c => c == '/')
  if r.isEmpty then (if s.toList.head? = some '/' then "/" else ".")
  else r.reverse.asString

/-- Models the two-argument `filepath.Join` on clean Unix-style paths. -/
def joinPath (a b : String) : String :=
  if a = "" then b
  else if a = "." then b
  else if a = "/" then "/" ++ b
  else a ++ "/" ++ b

/-- Translation of the body of `genCaseTestFilename`'s `strings.Map` closure:
the mutable `flip` flag becomes the `Bool` argument. Go's Unicode case
functions are modelled by Lean's ASCII `Char` case functions (every input
exercised in this development is ASCII). -/
def genCaseTestFlip : Bool → List Char → List Char
  | _, [] => []
  | false, r :: rest => r :: genCaseTestFlip false rest
  | true, r :: rest =>
    if r.isLower then
      let u := r.toUpper
      if u.toLower = r then u :: genCaseTestFlip false rest
      else r :: genCaseTestFlip true rest
    else if r.isUpper then
      let l := r.toLower
      if l.toUpper = r then l :: genCaseTestFlip false rest
      else r :: genCaseTestFlip true rest
    else r :: genCaseTestFlip true rest

/-- Translation of `genCaseTestFilename`. -/
def genCaseTestFilename (str : String) : String :=
  (genCaseTestFlip true str.toList).asString

/-- A rune is case-reversible when flipping its case and flipping back yields
the original rune (the spec's notion in §4.4). -/
def caseReversible (r : Char) : Bool :=
  (r.isLower && (r.toUpper.toLower == r)) || (r.isUpper && (r.toLower.toUpper == r))

/-- The contextual message `IsCaseSensitiveFilesystem` wraps around errors. -/
def caseSensitivityError : String :=
  "could not determine the case-sensitivity of the filesystem"

/-- Translation of `IsCaseSensitiveFilesystem`, parameterized by the `stat`
oracle. `.error` models returning a non-nil Go error. -/
def isCaseSensitiveFilesystem (stat : String → StatResult) (dir : String) :
    Except String Bool :=
  let alt := joinPath (dirPath dir) (genCaseTestFilename (basePath dir))
  match stat dir with
  | .notFound => .error caseSensitivityError
  | .ioError => .error caseSensitivityError
  | .found dInfo =>
    match stat alt with
    | .notFound => .ok true
    | .ioError => .error caseSensitivityError
    | .found aInfo => .ok (!sameFile dInfo aInfo)


/-! ## Statement heap

Go statement pointers are modelled as indices into a heap of statement
cells: pointer equality is id equality, in-place mutation is a cell update,
and `new`/`&tengo.Statement{...}` is allocation at the end of the heap. -/

def defaultStatement : Statement :=
  { file := "", text := "", type := .noop, delimiter := "",
    compound := false, defaultDatabase := "" }

structure Heap where
  cells : List Statement
deriving DecidableEq

def Heap.get (h : Heap) (i : Nat) : Statement :=
  h.cells.getD i defaultStatement

def Heap.set (h : Heap) (i : Nat) (st : Statement) : Heap :=
  ⟨h.cells.set i st⟩

def Heap.alloc (h : Heap) (st : Statement) : Nat × Heap :=
  (h.cells.length, ⟨h.cells ++ [st]⟩)

def Heap.size (h : Heap) : Nat := h.cells.length

/-! ## SQLFile and the tengo text-shaping contract -/

/-- Model of `SQLFile`: path, ordered statement ids, dirty flag. -/
structure SQLFile where
  filePath : String
  statements : List Nat
  dirty : Bool
deriving DecidableEq

/-- Modelled from the spec: `tengo.Statement.SplitTextBody` belongs to this
repository but is not among the provided sources. Per §4.3 it splits a
statement's text into the semantic body and the trailing footer, the footer
being the trailing delimiter plus any trailing whitespace/newline. -/
def splitTextBody (text delimiter : String) : String × String :=
  let cs := text.toList
  let core := (cs.reverse.dropWhile isSpaceRune).reverse
  let dcs := delimiter.toList
  let bodyList :=
    if delimiter ≠ "" ∧ dcs.isSuffixOf core then core.take (core.length - dcs.length)
    else core
  (bodyList.asString, (cs.drop bodyList.length).asString)

/-- Modelled from the spec: `tengo.Statement.NormalizeTrailer` belongs to
this repository but is not among the provided sources. Per §4.3 it
idempotently rewrites the text so it ends in exactly the statement's
delimiter followed by one newline. -/
def normalizeTrailer (st : Statement) : Statement :=
  { st with text := (splitTextBody st.text st.delimiter).1 ++ st.delimiter ++ "\n" }

/-- The disk: a map from paths to file contents (`none` = absent). -/
abbrev FileSys := String → Option String

/-- The buffer `Write` accumulates: the in-order concatenation of the
statements' `Text` fields. -/
def concatTexts (h : Heap) (l : List Nat) : String :=
  l.foldl (fun acc sid => acc ++ (h.get sid).text) ""

/-- Translation of `SQLFile.Write` (success path): if some statement is
neither Noop nor Command, write the concatenation and return its length;
otherwise delete the file and return 0. Clears `Dirty`. -/
def SQLFile.write (fs : FileSys) (h : Heap) (f : SQLFile) :
    FileSys × Nat × SQLFile :=
  let b := concatTexts h f.statements
  let keepFile := f.statements.any
    (fun sid => (h.get sid).type != .noop && (h.get sid).type != .command)
  if keepFile then
    (fun p => if p = f.filePath then some b else fs p, b.length,
      { f with dirty := false })
  else
    (fun p => if p = f.filePath then none else fs p, 0, { f with dirty := false })

/-- Translation of `makeDelimiterCommand`. -/
def makeDelimiterCommand (newDelimiter defaultDatabase filePath : String) :
    Statement :=
  { file := filePath
    text := "DELIMITER " ++ newDelimiter ++ "\n"
    type := .command
    delimiter := "\x00"
    compound := false
    defaultDatabase := defaultDatabase }

/-- Translation of the pruning loop at the top of `AddStatement`: pop
trailing Command-type statements from the end of the list. -/
def pruneTrailingCommands (h : Heap) (l : List Nat) : List Nat :=
  (l.reverse.dropWhile (fun sid => (h.get sid).type == .command)).reverse

/-- The delimiter-transition tail of `AddStatement` (the part after pruning
and end-of-file state recovery): insert a `DELIMITER` command before `stmt`
if needed, stamp and append `stmt`, and close the compound region with a
`DELIMITER ;` command when one was just opened. -/
def addStatementCore (hh : Heap) (filePath : String) (stmts : List Nat)
    (sid : Nat) (currentDelimiter defaultDatabase : String) : Heap × List Nat :=
  let step2 : Heap × List Nat × String :=
    if (hh.get sid).compound ∧ currentDelimiter = ";" then
      let a := hh.alloc (makeDelimiterCommand "//" defaultDatabase filePath)
      (a.2, stmts ++ [a.1], "//")
    else if ¬(hh.get sid).compound ∧ currentDelimiter ≠ ";" then
      let a := hh.alloc (makeDelimiterCommand ";" defaultDatabase filePath)
      (a.2, stmts ++ [a.1], ";")
    else (hh, stmts, currentDelimiter)
  let h2 := step2.1
  let stmts2 := step2.2.1
  let cd := step2.2.2
  let newStmt := normalizeTrailer
    { h2.get sid with
      file := filePath
      defaultDatabase := defaultDatabase
      delimiter := cd }
  let h3 := h2.set sid newStmt
  let stmts3 := stmts2 ++ [sid]
  if cd ≠ ";" then
    let a := h3.alloc (makeDelimiterCommand ";" defaultDatabase filePath)
    (a.2, stmts3 ++ [a.1])
  else (h3, stmts3)

/-- Translation of `SQLFile.AddStatement`: prune trailing commands, recover
the end-of-file delimiter and default database from the last remaining
statement (normalizing its trailer), then run the delimiter-transition tail.
The last pruned statement's delimiter and default database are read before
its trailer is normalized; `NormalizeTrailer` does not touch those two
fields, so reading them from the pre-normalization heap is equivalent to the
Go order. -/
def addStatement (h : Heap) (f : SQLFile) (sid : Nat) : Heap × SQLFile :=
  let stmts := pruneTrailingCommands h f.statements
  let h1 := match stmts.getLast? with
    | none => h
    | some lastId => h.set lastId (normalizeTrailer (h.get lastId))
  let currentDelimiter := match stmts.getLast? with
    | none => ";"
    | some lastId => (h.get lastId).delimiter
  let defaultDatabase := match stmts.getLast? with
    | none => ""
    | some lastId => (h.get lastId).defaultDatabase
  let r := addStatementCore h1 f.filePath stmts sid currentDelimiter defaultDatabase
  (r.1, { f with statements := r.2, dirty := true })

/-- Translation of `statementIndex`: the first index at which the statement
pointer occurs, `none` when the Go code would panic. -/
def statementIndex (f : SQLFile) (sid : Nat) : Option Nat :=
  f.statements.findIdx? (fun j => j == sid)

/-- Translation of `SQLFile.EditStatementText`; `none` models the panic when
the statement is not found. -/
def editStatementText (h : Heap) (f : SQLFile) (sid : Nat)
    (newText : String) (compound : Bool) : Option (Heap × SQLFile) :=
  let f := { f with dirty := true }
  match statementIndex f sid with
  | none => none
  | some i =>
    let stmt := h.get sid
    if stmt.delimiter ≠ ";" ∨ compound = false then
      let footer := (splitTextBody stmt.text stmt.delimiter).2
      some (h.set sid { stmt with text := newText ++ footer, compound := compound }, f)
    else
      let a := h.alloc (makeDelimiterCommand "//" stmt.defaultDatabase f.filePath)
      let stmt1 := { stmt with
        delimiter := "//"
        text := newText ++ "//\n"
        compound := compound }
      let h2 := a.2.set sid stmt1
      let b := h2.alloc (makeDelimiterCommand ";" stmt1.defaultDatabase f.filePath)
      let newStatements :=
        f.statements.take i ++ [a.1, sid, b.1] ++ f.statements.drop (i + 1)
      some (b.2, { f with statements := newStatements })

/-- Translation of `SQLFile.RemoveStatement`; `none` models the panic when
the statement is not found. -/
def removeStatement (h : Heap) (f : SQLFile) (sid : Nat) :
    Option (Heap × SQLFile) :=
  match statementIndex f sid with
  | none => none
  | some i =>
    some (h, { f with statements := f.statements.eraseIdx i, dirty := true })

/-! ## Delimiter context

The spec's invariant 2 speaks of "the terminator declared by the nearest
preceding Command-type statement that sets the delimiter, or `";"` if none
precedes it". The following definitions formalize that reading. -/

/-- The terminator a statement declares: for a Command-type statement whose
text is a `DELIMITER` command, the token after `"DELIMITER "` with trailing
whitespace stripped; `none` for every other statement. -/
def declaredDelimiter (st : Statement) : Option String :=
  if st.type = .command ∧ st.text.toList.take 10 = "DELIMITER ".toList then
    some (((st.text.toList.drop 10).reverse.dropWhile isSpaceRune).reverse.asString)
  else none

/-- The delimiter context in effect after a statement, given the context `d`
in effect before it. -/
def nextCtx (st : Statement) (d : String) : String :=
  (declaredDelimiter st).getD d

/-- The delimiter context in effect after a whole list of statements. -/
def ctxEnd (h : Heap) (l : List Nat) (d : String) : String :=
  l.foldl (fun d sid => nextCtx (h.get sid) d) d

/-- Invariant 2 over the non-Command statements of a list, starting in
context `d`: each non-Command statement's `Delimiter` field equals the
context declared by the nearest preceding delimiter-setting command. -/
def ctxOk (h : Heap) : List Nat → String → Prop
  | [], _ => True
  | sid :: rest, d =>
    ((h.get sid).type = .command ∨ (h.get sid).delimiter = d) ∧
      ctxOk h rest (nextCtx (h.get sid) d)

/-- The claim of invariant 2 read literally over every statement, Command
statements included. -/
def ctxOkAll (h : Heap) : List Nat → String → Prop
  | [], _ => True
  | sid :: rest, d =>
    (h.get sid).delimiter = d ∧ ctxOkAll h rest (nextCtx (h.get sid) d)

instance ctxOkDec (h : Heap) :
    (l : List Nat) → (d : String) → Decidable (ctxOk h l d)
  | [], _ => .isTrue trivial
  | sid :: rest, d => by
    have := ctxOkDec h rest (nextCtx (h.get sid) d)
    unfold ctxOk
    exact instDecidableAnd

instance ctxOkAllDec (h : Heap) :
    (l : List Nat) → (d : String) → Decidable (ctxOkAll h l d)
  | [], _ => .isTrue trivial
  | sid :: rest, d => by
    have := ctxOkAllDec h rest (nextCtx (h.get sid) d)
    unfold ctxOkAll
    exact instDecidableAnd

/-- States reachable from an empty `SQLFile` by editor calls. `init` starts
from an empty file over an arbitrary heap of caller-created statements;
`alloc` lets the caller create further statements; `add` is an
`AddStatement` call on a valid statement pointer not already owned by the
file; `edit` and `remove` are non-panicking `EditStatementText` /
`RemoveStatement` calls whose target is not a Command-type statement. -/
inductive Reach : Heap → SQLFile → Prop
  | init (h : Heap) (path : String) : Reach h ⟨path, [], false⟩
  | alloc {h f} (st : Statement) : Reach h f → Reach (h.alloc st).2 f
  | add {h f h' f'} (sid : Nat) : Reach h f →
      sid < h.size → sid ∉ f.statements →
      addStatement h f sid = (h', f') → Reach h' f'
  | edit {h f h' f'} (sid : Nat) (newText : String) (compound : Bool) :
      Reach h f → (h.get sid).type ≠ .command →
      editStatementText h f sid newText compound = some (h', f') → Reach h' f'
  | remove {h f h' f'} (sid : Nat) : Reach h f →
      (h.get sid).type ≠ .command →
      removeStatement h f sid = some (h', f') → Reach h' f'

/-! ## Concrete fixtures used by witnesses and counterexamples -/

/-- A compound (trigger-like) statement, as the tokenizer would produce it. -/
def trigStmt : Statement :=
  { file := "", text := "CREATE TRIGGER trg BEGIN X; END", type := .other,
    delimiter := ";", compound := true, defaultDatabase := "" }

/-- A plain non-compound data statement. -/
def insStmt : Statement :=
  { file := "", text := "INSERT INTO t VALUES (1)", type := .other,
    delimiter := ";", compound := false, defaultDatabase := "" }

/-- A comment-only statement. -/
def noopStmt : Statement :=
  { file := "", text := "-- comment\n", type := .noop,
    delimiter := ";", compound := false, defaultDatabase := "" }

/-- A `USE` command statement, as the tokenizer would produce it. -/
def useStmt : Statement :=
  { file := "", text := "USE foo\n", type := .command,
    delimiter := ";", compound := false, defaultDatabase := "foo" }

/-- A heap for exercising the pruning of trailing commands: a data
statement, a trailing command, and a compound statement still to be added. -/
def cmdHeap : Heap := ⟨[insStmt, useStmt, trigStmt]⟩

/-- A heap holding the three fixture statements. -/
def fixtureHeap : Heap := ⟨[trigStmt, insStmt, noopStmt]⟩

/-- An empty SQL file at path `"t.sql"`. -/
def emptyFile : SQLFile := ⟨"t.sql", [], false⟩

/-- The heap after one compound `AddStatement` into the empty file. -/
def reachedHeapB : Heap := (addStatement fixtureHeap emptyFile 0).1

/-- The file after one compound `AddStatement` into the empty file. -/
def reachedFileB : SQLFile := (addStatement fixtureHeap emptyFile 0).2

/-! ### Lemmas for the naming component -/

lemma filterMap_removeSpecialChars (l : List Char) :
    l.filterMap removeSpecialChars =
      l.filter (fun r => !(isSpaceRune r || bannedRunes.contains r)) := by
  induction l with
  | nil => rfl
  | cons c cs ih =>
    simp only [List.filterMap_cons, List.filter_cons]
    by_cases hs : isSpaceRune c
    · simp [removeSpecialChars, hs, ih]
    · by_cases hb : c ∈ bannedRunes
      · simp [removeSpecialChars, hs, hb, List.contains, List.elem_eq_mem, ih]
      · simp [removeSpecialChars, hs, hb, List.contains, List.elem_eq_mem, ih]

/-- C10 counterexample: `'!'` is neither whitespace nor banned, so it is
retained; the result on `"My Table!"` is `"MyTable!.sql"`, not the claimed
`"MyTable.sql"`. -/
theorem fileNameForObject_counterexample :
    fileNameForObject "My Table!" false = "MyTable!.sql" ∧
      fileNameForObject "My Table!" false ≠ "MyTable.sql" := by
  decide

/-- C10 (amended): `FileNameForObject` strips whitespace and the fixed banned
set, substitutes `"symbols"` when nothing remains, lower-cases exactly when
requested, and appends `".sql"`; in particular
`FileNameForObject "My Table!" false = "MyTable!.sql"` — the space is
stripped and the `'!'` retained because it is not in the banned set. -/
theorem fileNameForObject_correct :
    (∀ objectName lowerCase,
        fileNameForObject objectName lowerCase =
          fileNameForObjectSpec objectName lowerCase) ∧
      fileNameForObject "My Table!" false = "MyTable!.sql" := by
  refine ⟨fun objectName lowerCase => ?_, by decide⟩
  simp [fileNameForObject, fileNameForObjectSpec, stringMap, normalizeFileName,
    filterMap_removeSpecialChars]

/-- C8: outcome analysis of `IsCaseSensitiveFilesystem`: not-found on the
alternate path yields `(true, nil)`; two successful stats yield `false` iff
they refer to the same file; an error statting `dir`, or a non-not-found
error statting the alternate, yields an error. -/
theorem isCaseSensitiveFilesystem_outcomes (stat : String → StatResult) (dir : String) :
    (∀ dInfo, stat dir = .found dInfo →
      stat (joinPath (dirPath dir) (genCaseTestFilename (basePath dir))) = .notFound →
      isCaseSensitiveFilesystem stat dir = .ok true) ∧
    (∀ dInfo aInfo, stat dir = .found dInfo →
      stat (joinPath (dirPath dir) (genCaseTestFilename (basePath dir))) = .found aInfo →
      (isCaseSensitiveFilesystem stat dir = .ok false ↔ sameFile dInfo aInfo = true)) ∧
    ((stat dir = .notFound ∨ stat dir = .ioError) →
      isCaseSensitiveFilesystem stat dir = .error caseSensitivityError) ∧
    (∀ dInfo, stat dir = .found dInfo →
      stat (joinPath (dirPath dir) (genCaseTestFilename (basePath dir))) = .ioError →
      isCaseSensitiveFilesystem stat dir = .error caseSensitivityError) := by
  refine ⟨fun dInfo h1 h2 => ?_, fun dInfo aInfo h1 h2 => ?_, fun h1 => ?_,
    fun dInfo h1 h2 => ?_⟩
  · simp [isCaseSensitiveFilesystem, h1, h2]
  · simp only [isCaseSensitiveFilesystem, h1, h2]
    constructor
    · intro h
      rcases Except.ok.inj h with h'
      cases hsf : sameFile dInfo aInfo with
      | true => rfl
      | false => rw [hsf] at h'; simp at h'
    · intro h; rw [h]; rfl
  · rcases h1 with h | h <;> simp [isCaseSensitiveFilesystem, h]
  · simp [isCaseSensitiveFilesystem, h1, h2]

/-- A concrete stat oracle for the C8 witness: only `"d"` exists on disk. -/
def statOnlyD : String → StatResult :=
  fun s => if s = "d" then .found 1 else .notFound

theorem isCaseSensitiveFilesystem_outcomes_witness :
    isCaseSensitiveFilesystem statOnlyD "d" = .ok true := by
  exact (isCaseSensitiveFilesystem_outcomes statOnlyD "d").1 1 (by decide) (by decide)

lemma genCaseTestFlip_of_no_reversible (l : List Char)
    (h : ∀ r ∈ l, caseReversible r = false) : genCaseTestFlip true l = l := by
  induction l with
  | nil => rfl
  | cons c cs ih =>
    have hc : caseReversible c = false := h c (List.mem_cons_self c cs)
    have hrest : ∀ r ∈ cs, caseReversible r = false :=
      fun r hr => h r (List.mem_cons_of_mem c hr)
    rw [genCaseTestFlip]
    by_cases h1 : c.isLower = true
    · have hne : ¬(c.toUpper.toLower = c) := by
        intro he
        rw [caseReversible] at hc
        simp [h1, he] at hc
      simp [h1, hne, ih hrest]
    · by_cases h2 : c.isUpper = true
      · have hne : ¬(c.toLower.toUpper = c) := by
          intro he
          rw [caseReversible] at hc
          simp [h2, he] at hc
        simp [h1, h2, hne, ih hrest]
      · simp [h1, h2, ih hrest]

/-- C9: when the base name of `dir` has no case-reversible rune, the generated
alternate filename is the base name unchanged, and whenever `stat dir`
succeeds (with the alternate path recombining to `dir` itself) the function
reports case-insensitivity: `(false, nil)` — regardless of the actual
filesystem. -/
theorem genCaseTestFilename_degenerate (stat : String → StatResult) (dir : String)
    (info : Nat)
    (hbase : ∀ r ∈ (basePath dir).toList, caseReversible r = false)
    (hjoin : joinPath (dirPath dir) (basePath dir) = dir)
    (hstat : stat dir = .found info) :
    genCaseTestFilename (basePath dir) = basePath dir ∧
      isCaseSensitiveFilesystem stat dir = .ok false := by
  have hgen : genCaseTestFilename (basePath dir) = basePath dir := by
    rw [genCaseTestFilename, genCaseTestFlip_of_no_reversible _ hbase]
    rfl
  refine ⟨hgen, ?_⟩
  have halt : joinPath (dirPath dir) (genCaseTestFilename (basePath dir)) = dir := by
    rw [hgen, hjoin]
  simp [isCaseSensitiveFilesystem, halt, hstat, sameFile]

theorem genCaseTestFilename_degenerate_witness :
    genCaseTestFilename (basePath "123") = basePath "123" ∧
      isCaseSensitiveFilesystem (fun _ => StatResult.found 5) "123" =
        .ok false := by
  exact genCaseTestFilename_degenerate (fun _ => StatResult.found 5) "123" 5
    (by decide) (by decide) rfl

/-! ### Heap lemmas -/

lemma Heap.size_set (h : Heap) (i : Nat) (st : Statement) :
    (h.set i st).size = h.size := by
  simp [Heap.size, Heap.set]

lemma Heap.size_alloc (h : Heap) (st : Statement) :
    (h.alloc st).2.size = h.size + 1 := by
  simp [Heap.size, Heap.alloc]

lemma Heap.alloc_fst (h : Heap) (st : Statement) : (h.alloc st).1 = h.size := rfl

lemma Heap.get_set_self (h : Heap) {i : Nat} (st : Statement)
    (hi : i < h.size) : (h.set i st).get i = st := by
  simp [Heap.get, Heap.set, List.getD_eq_getElem?_getD, List.getElem?_set_self hi]

lemma Heap.get_set_ne (h : Heap) {i j : Nat} (st : Statement)
    (hne : i ≠ j) : (h.set i st).get j = h.get j := by
  simp [Heap.get, Heap.set, List.getD_eq_getElem?_getD, List.getElem?_set_ne hne]

lemma Heap.get_alloc_of_lt (h : Heap) (st : Statement) {i : Nat}
    (hi : i < h.size) : (h.alloc st).2.get i = h.get i := by
  simp [Heap.get, Heap.alloc, List.getD_eq_getElem?_getD,
    List.getElem?_append_left hi]

lemma Heap.get_alloc_size (h : Heap) (st : Statement) :
    (h.alloc st).2.get h.size = st := by
  simp only [Heap.get, Heap.alloc, Heap.size, List.getD_eq_getElem?_getD]
  rw [List.getElem?_append_right (le_refl _)]
  simp

/-! ### C1: Write -/

/-- C1: `Write` deletes the file and returns 0 iff every statement is of
Noop or Command type; otherwise it writes exactly the in-order
concatenation of the statements' texts and returns its length. -/
theorem write_existence (fs : FileSys) (h : Heap) (f : SQLFile) :
    (((SQLFile.write fs h f).1 f.filePath = none ∧
        (SQLFile.write fs h f).2.1 = 0) ↔
      (∀ sid ∈ f.statements,
        (h.get sid).type = .noop ∨ (h.get sid).type = .command)) ∧
    ((∃ sid ∈ f.statements,
        (h.get sid).type ≠ .noop ∧ (h.get sid).type ≠ .command) →
      ((SQLFile.write fs h f).1 f.filePath = some (concatTexts h f.statements) ∧
        (SQLFile.write fs h f).2.1 = (concatTexts h f.statements).length)) := by
  by_cases hk : (f.statements.any
      (fun sid => (h.get sid).type != .noop && (h.get sid).type != .command)) = true
  · have hex : ∃ sid ∈ f.statements,
        (h.get sid).type ≠ .noop ∧ (h.get sid).type ≠ .command := by
      simpa [List.any_eq_true, bne_iff_ne] using hk
    have h1 : (SQLFile.write fs h f).1 f.filePath =
        some (concatTexts h f.statements) := by
      simp [SQLFile.write, hk]
    have h2 : (SQLFile.write fs h f).2.1 = (concatTexts h f.statements).length := by
      simp [SQLFile.write, hk]
    refine ⟨⟨fun hcon => ?_, fun hall => ?_⟩, fun _ => ⟨h1, h2⟩⟩
    · rw [h1] at hcon
      exact absurd hcon.1 (by simp)
    · obtain ⟨sid, hmem, hna, hnb⟩ := hex
      exact absurd (hall sid hmem) (by tauto)
  · have hall : ∀ sid ∈ f.statements,
        (h.get sid).type = .noop ∨ (h.get sid).type = .command := by
      intro sid hmem
      by_contra hcon
      push_neg at hcon
      exact hk (List.any_eq_true.mpr
        ⟨sid, hmem, by simp [bne_iff_ne]; tauto⟩)
    have h1 : (SQLFile.write fs h f).1 f.filePath = none := by
      simp [SQLFile.write, hk]
    have h2 : (SQLFile.write fs h f).2.1 = 0 := by
      simp [SQLFile.write, hk]
    refine ⟨⟨fun _ => hall, fun _ => ⟨h1, h2⟩⟩, fun hex => ?_⟩
    obtain ⟨sid, hmem, hna, hnb⟩ := hex
    exact absurd (hall sid hmem) (by tauto)

theorem write_existence_witness :
    (SQLFile.write (fun _ => none) fixtureHeap ⟨"t.sql", [2], true⟩).1 "t.sql" =
      none := by
  exact ((write_existence (fun _ => none) fixtureHeap
    ⟨"t.sql", [2], true⟩).1.mpr (by decide)).1

/-! ### C7: identity-not-found aborts -/

/-- C7: when the statement's identity is absent from the file's sequence,
`EditStatementText` and `RemoveStatement` both abort (Go: panic, modelled
as `none`) rather than return a result or silently no-op. -/
theorem notFound_aborts (h : Heap) (f : SQLFile) (sid : Nat)
    (habs : sid ∉ f.statements) (newText : String) (compound : Bool) :
    editStatementText h f sid newText compound = none ∧
      removeStatement h f sid = none := by
  have hidx : statementIndex f sid = none := by
    rw [statementIndex, List.findIdx?_eq_none_iff]
    intro x hx
    simp only [beq_eq_false_iff_ne]
    exact fun he => habs (he ▸ hx)
  have hidx' : statementIndex { f with dirty := true } sid = none := hidx
  exact ⟨by simp [editStatementText, hidx'], by simp [removeStatement, hidx]⟩

theorem notFound_aborts_witness :
    editStatementText fixtureHeap emptyFile 5 "x" false = none ∧
      removeStatement fixtureHeap emptyFile 5 = none := by
  exact notFound_aborts fixtureHeap emptyFile 5 (by decide) "x" false

/-! ### C5: EditStatementText fast path -/

lemma statementIndex_isSome_of_mem {f : SQLFile} {sid : Nat}
    (hmem : sid ∈ f.statements) : ∃ i, statementIndex f sid = some i := by
  rw [statementIndex]
  cases hfind : f.statements.findIdx? (fun j => j == sid) with
  | some i => exact ⟨i, rfl⟩
  | none =>
    rw [List.findIdx?_eq_none_iff] at hfind
    exact absurd (hfind sid hmem) (by simp)

/-- C5: when `stmt.Delimiter ≠ ";"` or `compound` is false,
`EditStatementText` rewrites only the target statement's text (new body plus
the old footer from splitting the previous text) and `Compound` flag, and
leaves the statement sequence unchanged — same length, same statement object
at every position; no other heap cell changes. -/
theorem editStatementText_fast (h : Heap) (f : SQLFile) (sid : Nat)
    (newText : String) (compound : Bool)
    (hmem : sid ∈ f.statements) (hvalid : sid < h.size)
    (hfast : (h.get sid).delimiter ≠ ";" ∨ compound = false) :
    ∃ h' : Heap,
      editStatementText h f sid newText compound =
        some (h', { f with dirty := true }) ∧
      h'.get sid = { h.get sid with
        text := newText ++ (splitTextBody (h.get sid).text (h.get sid).delimiter).2
        compound := compound } ∧
      (∀ j, j ≠ sid → h'.get j = h.get j) := by
  have hmem' : sid ∈ ({ f with dirty := true } : SQLFile).statements := hmem
  obtain ⟨i, hi⟩ := statementIndex_isSome_of_mem hmem'
  refine ⟨h.set sid { h.get sid with
      text := newText ++ (splitTextBody (h.get sid).text (h.get sid).delimiter).2
      compound := compound }, ?_, ?_, ?_⟩
  · simp only [editStatementText, hi]
    rw [if_pos hfast]
  · exact Heap.get_set_self h _ hvalid
  · intro j hj
    exact Heap.get_set_ne h _ (fun he => hj he.symm)

theorem editStatementText_fast_witness :
    ∃ h' : Heap,
      editStatementText fixtureHeap ⟨"t.sql", [1], false⟩ 1
          "INSERT INTO t VALUES (2)" false =
        some (h', ⟨"t.sql", [1], true⟩) ∧
      h'.get 1 = { fixtureHeap.get 1 with
        text := "INSERT INTO t VALUES (2)" ++
          (splitTextBody (fixtureHeap.get 1).text (fixtureHeap.get 1).delimiter).2
        compound := false } ∧
      (∀ j, j ≠ 1 → h'.get j = fixtureHeap.get j) := by
  exact editStatementText_fast fixtureHeap ⟨"t.sql", [1], false⟩ 1
    "INSERT INTO t VALUES (2)" false (by decide) (by decide) (Or.inr rfl)

/-! ### C4: EditStatementText slow path -/

/-- Heap bookkeeping for the alloc/mutate/alloc pattern shared by the slow
path of `EditStatementText` and the compound branch of `AddStatement`. -/
lemma heap_alloc_set_alloc (h : Heap) (sid : Nat) (c1 c2 st : Statement)
    (hvalid : sid < h.size) :
    (((h.alloc c1).2.set sid st).alloc c2).2.get h.size = c1 ∧
    (((h.alloc c1).2.set sid st).alloc c2).2.get sid = st ∧
    (((h.alloc c1).2.set sid st).alloc c2).2.get (h.size + 1) = c2 ∧
    (∀ j, j ≠ sid → j < h.size →
      (((h.alloc c1).2.set sid st).alloc c2).2.get j = h.get j) ∧
    (((h.alloc c1).2.set sid st).alloc c2).1 = h.size + 1 := by
  have hsz2 : ((h.alloc c1).2.set sid st).size = h.size + 1 := by
    rw [Heap.size_set, Heap.size_alloc]
  have hsid1 : sid < (h.alloc c1).2.size := by
    rw [Heap.size_alloc]
    omega
  have hlt1 : h.size < ((h.alloc c1).2.set sid st).size := by
    rw [hsz2]
    omega
  have hlt2 : sid < ((h.alloc c1).2.set sid st).size := by
    rw [hsz2]
    omega
  have hne1 : sid ≠ h.size := by omega
  refine ⟨?_, ?_, ?_, ?_, ?_⟩
  · rw [Heap.get_alloc_of_lt _ _ hlt1]
    rw [Heap.get_set_ne _ _ hne1]
    exact Heap.get_alloc_size h c1
  · rw [Heap.get_alloc_of_lt _ _ hlt2]
    exact Heap.get_set_self _ _ hsid1
  · rw [← hsz2]
    exact Heap.get_alloc_size _ _
  · intro j hj hjlt
    have hltj : j < ((h.alloc c1).2.set sid st).size := by
      rw [hsz2]
      omega
    rw [Heap.get_alloc_of_lt _ _ hltj]
    rw [Heap.get_set_ne _ _ (fun he => hj he.symm)]
    exact Heap.get_alloc_of_lt _ _ hjlt
  · rw [Heap.alloc_fst, hsz2]

/-- C4: when `stmt.Delimiter = ";"` and `compound` is true,
`EditStatementText` replaces the sequence by one exactly two elements
longer: the prefix before `stmt`'s index unchanged, a `DELIMITER //`
command, `stmt` mutated (`Delimiter = "//"`, `Text = newText ++ "//\n"`,
`Compound = true`), a `DELIMITER ;` command, then the suffix after `stmt`'s
old index unchanged. -/
theorem editStatementText_slow (h : Heap) (f : SQLFile) (sid : Nat)
    (newText : String) (i : Nat)
    (hidx : statementIndex f sid = some i)
    (hvalid : sid < h.size)
    (hdelim : (h.get sid).delimiter = ";") :
    ∃ h' : Heap,
      editStatementText h f sid newText true =
        some (h', { f with
          statements := f.statements.take i ++ [h.size, sid, h.size + 1] ++
            f.statements.drop (i + 1)
          dirty := true }) ∧
      (f.statements.take i ++ [h.size, sid, h.size + 1] ++
          f.statements.drop (i + 1)).length = f.statements.length + 2 ∧
      h'.get h.size =
        makeDelimiterCommand "//" (h.get sid).defaultDatabase f.filePath ∧
      h'.get sid = { h.get sid with
        delimiter := "//"
        text := newText ++ "//\n"
        compound := true } ∧
      h'.get (h.size + 1) =
        makeDelimiterCommand ";" (h.get sid).defaultDatabase f.filePath ∧
      (∀ j, j ≠ sid → j < h.size → h'.get j = h.get j) := by
  have hidx' : statementIndex { f with dirty := true } sid = some i := hidx
  have hilen : i < f.statements.length := by
    rw [statementIndex, List.findIdx?_eq_some_iff_getElem] at hidx
    exact hidx.1
  obtain ⟨hg1, hg2, hg3, hg4, hb1⟩ := heap_alloc_set_alloc h sid
    (makeDelimiterCommand "//" (h.get sid).defaultDatabase f.filePath)
    (makeDelimiterCommand ";" (h.get sid).defaultDatabase f.filePath)
    { h.get sid with
      delimiter := "//"
      text := newText ++ "//\n"
      compound := true } hvalid
  refine ⟨_, ?_, ?_, hg1, hg2, hg3, hg4⟩
  · simp only [editStatementText, hidx']
    rw [if_neg (by simp [hdelim])]
    rw [Heap.alloc_fst, hb1]
  · rw [List.length_append, List.length_append, List.length_take,
      List.length_drop, min_eq_left (le_of_lt hilen)]
    simp
    omega

theorem editStatementText_slow_witness :
    ∃ h' : Heap,
      editStatementText fixtureHeap ⟨"t.sql", [1], false⟩ 1 "CREATE X" true =
        some (h', ⟨"t.sql", [3, 1, 4], true⟩) := by
  obtain ⟨h', heq, -, -, -, -, -⟩ := editStatementText_slow fixtureHeap
    ⟨"t.sql", [1], false⟩ 1 "CREATE X" 0 (by decide) (by decide) (by decide)
  exact ⟨h', heq⟩

/-! ### C2: AddStatement of a compound statement into an empty file -/

lemma declaredDelimiter_mk_slash (db fp : String) :
    declaredDelimiter (makeDelimiterCommand "//" db fp) = some "//" := by
  have htext : (makeDelimiterCommand "//" db fp).text = "DELIMITER //\n" := by
    show "DELIMITER " ++ "//" ++ "\n" = "DELIMITER //\n"
    decide
  have htype : (makeDelimiterCommand "//" db fp).type = .command := rfl
  rw [declaredDelimiter, htext, htype]
  decide

lemma declaredDelimiter_mk_semi (db fp : String) :
    declaredDelimiter (makeDelimiterCommand ";" db fp) = some ";" := by
  have htext : (makeDelimiterCommand ";" db fp).text = "DELIMITER ;\n" := by
    show "DELIMITER " ++ ";" ++ "\n" = "DELIMITER ;\n"
    decide
  have htype : (makeDelimiterCommand ";" db fp).type = .command := rfl
  rw [declaredDelimiter, htext, htype]
  decide

lemma addStatement_empty_compound_eq (h : Heap) (f : SQLFile) (sid : Nat)
    (hempty : f.statements = []) (hvalid : sid < h.size)
    (hcomp : (h.get sid).compound = true) :
    addStatement h f sid =
      ((((h.alloc (makeDelimiterCommand "//" "" f.filePath)).2.set sid
          (normalizeTrailer { h.get sid with
            file := f.filePath
            defaultDatabase := ""
            delimiter := "//" })).alloc
          (makeDelimiterCommand ";" "" f.filePath)).2,
        { f with statements := [h.size, sid, h.size + 1], dirty := true }) := by
  simp only [addStatement, addStatementCore, hempty, pruneTrailingCommands,
    List.reverse_nil, List.dropWhile_nil, List.getLast?_nil, hcomp, Heap.alloc_fst,
    Heap.get_alloc_of_lt h (makeDelimiterCommand "//" "" f.filePath) hvalid,
    Heap.size_set, Heap.size_alloc]
  simp [hcomp, Heap.get_alloc_of_lt h (makeDelimiterCommand "//" "" f.filePath) hvalid,
    Heap.size_set, Heap.size_alloc]

/-- C2: starting from an empty file, `AddStatement` with a `Compound = true`
statement produces exactly three statements in order — a `DELIMITER //`
command, the added statement carrying `Delimiter = "//"`, and a
`DELIMITER ;` command — so the file ends in default-delimiter state within
that single call. -/
theorem addStatement_compound_empty (h : Heap) (f : SQLFile) (sid : Nat)
    (hempty : f.statements = []) (hvalid : sid < h.size)
    (hcomp : (h.get sid).compound = true) :
    (addStatement h f sid).2.statements = [h.size, sid, h.size + 1] ∧
      (addStatement h f sid).1.get h.size =
        makeDelimiterCommand "//" "" f.filePath ∧
      (addStatement h f sid).1.get sid = normalizeTrailer { h.get sid with
        file := f.filePath
        defaultDatabase := ""
        delimiter := "//" } ∧
      ((addStatement h f sid).1.get sid).delimiter = "//" ∧
      (addStatement h f sid).1.get (h.size + 1) =
        makeDelimiterCommand ";" "" f.filePath ∧
      ctxEnd (addStatement h f sid).1 (addStatement h f sid).2.statements ";" =
        ";" ∧
      (addStatement h f sid).2.dirty = true := by
  obtain ⟨hg1, hg2, hg3, -, -⟩ := heap_alloc_set_alloc h sid
    (makeDelimiterCommand "//" "" f.filePath)
    (makeDelimiterCommand ";" "" f.filePath)
    (normalizeTrailer { h.get sid with
      file := f.filePath
      defaultDatabase := ""
      delimiter := "//" }) hvalid
  have heq := addStatement_empty_compound_eq h f sid hempty hvalid hcomp
  rw [heq]
  refine ⟨rfl, hg1, hg2, ?_, hg3, ?_, rfl⟩
  · rw [hg2]
    rfl
  · simp only [ctxEnd, List.foldl_cons, List.foldl_nil]
    rw [hg3]
    simp [nextCtx, declaredDelimiter_mk_semi]

theorem addStatement_compound_empty_witness :
    (addStatement fixtureHeap emptyFile 0).2.statements = [3, 0, 4] := by
  exact (addStatement_compound_empty fixtureHeap emptyFile 0 rfl
    (by decide) (by decide)).1

/-! ### C6: AddStatement prunes trailing commands first -/

lemma head?_dropWhile_not (p : α → Bool) :
    ∀ (l : List α) (a : α), (l.dropWhile p).head? = some a → p a = false := by
  intro l
  induction l with
  | nil =>
    intro a ha
    simp at ha
  | cons x xs ih =>
    intro a ha
    rw [List.dropWhile_cons] at ha
    by_cases hx : p x = true
    · rw [if_pos hx] at ha
      exact ih a ha
    · rw [if_neg hx] at ha
      simp only [List.head?_cons, Option.some.injEq] at ha
      rw [← ha]
      simpa using hx

lemma pruneTrailingCommands_getLast_not_command (h : Heap) (l : List Nat) :
    ∀ lastId, (pruneTrailingCommands h l).getLast? = some lastId →
      (h.get lastId).type ≠ .command := by
  intro lastId hlast
  rw [pruneTrailingCommands, List.getLast?_reverse] at hlast
  have hdrop := head?_dropWhile_not
    (fun sid => (h.get sid).type == .command) l.reverse lastId hlast
  simpa using hdrop

/-- The delimiter-transition tail appends exactly the new statement and the
`DELIMITER` commands it freshly allocates — nothing else — after the list it
was handed. -/
lemma addStatementCore_shape (hh : Heap) (fp : String) (p : List Nat)
    (sid : Nat) (cd db : String) :
    ∃ inserted, (addStatementCore hh fp p sid cd db).2 = p ++ inserted ∧
      (inserted = [hh.size, sid, hh.size + 1] ∨ inserted = [hh.size, sid] ∨
        inserted = [sid, hh.size] ∨ inserted = [sid]) := by
  by_cases hc1 : ((hh.get sid).compound = true ∧ cd = ";")
  · refine ⟨[hh.size, sid, hh.size + 1], ?_, Or.inl rfl⟩
    simp only [addStatementCore]
    rw [if_pos hc1]
    rw [if_pos (by decide : ("//" : String) ≠ ";")]
    simp [Heap.alloc_fst, Heap.size_set, Heap.size_alloc, List.append_assoc]
  · by_cases hc2 : (¬(hh.get sid).compound = true ∧ cd ≠ ";")
    · refine ⟨[hh.size, sid], ?_, Or.inr (Or.inl rfl)⟩
      simp only [addStatementCore]
      rw [if_neg hc1, if_pos hc2]
      rw [if_neg (by simp : ¬(";" : String) ≠ ";")]
      simp [Heap.alloc_fst, List.append_assoc]
    · by_cases hcd2 : cd ≠ ";"
      · refine ⟨[sid, hh.size], ?_, Or.inr (Or.inr (Or.inl rfl))⟩
        simp only [addStatementCore]
        rw [if_neg hc1, if_neg hc2, if_pos hcd2]
        simp [Heap.alloc_fst, Heap.size_set, List.append_assoc]
      · refine ⟨[sid], ?_, Or.inr (Or.inr (Or.inr rfl))⟩
        simp only [addStatementCore]
        rw [if_neg hc1, if_neg hc2, if_neg hcd2]

lemma addStatement_statements_shape (h : Heap) (f : SQLFile) (sid : Nat) :
    ∃ inserted, (addStatement h f sid).2.statements =
      pruneTrailingCommands h f.statements ++ inserted ∧
      (inserted = [h.size, sid, h.size + 1] ∨ inserted = [h.size, sid] ∨
        inserted = [sid, h.size] ∨ inserted = [sid]) := by
  cases hlast : (pruneTrailingCommands h f.statements).getLast? with
  | none =>
    have hred : (addStatement h f sid).2.statements =
        (addStatementCore h f.filePath (pruneTrailingCommands h f.statements)
          sid ";" "").2 := by
      simp only [addStatement, hlast]
    rw [hred]
    exact addStatementCore_shape h f.filePath _ sid ";" ""
  | some lastId =>
    have hred : (addStatement h f sid).2.statements =
        (addStatementCore (h.set lastId (normalizeTrailer (h.get lastId)))
          f.filePath (pruneTrailingCommands h f.statements) sid
          (h.get lastId).delimiter (h.get lastId).defaultDatabase).2 := by
      simp only [addStatement, hlast]
    rw [hred]
    have hshape := addStatementCore_shape
      (h.set lastId (normalizeTrailer (h.get lastId))) f.filePath
      (pruneTrailingCommands h f.statements) sid
      (h.get lastId).delimiter (h.get lastId).defaultDatabase
    rwa [Heap.size_set] at hshape

/-- C6: `AddStatement` removes every trailing Command-type statement before
inserting anything: its result is exactly the pruned sequence followed by
the newly created statements (the added statement and at most two freshly
allocated `DELIMITER` commands, whose ids are the fresh ids `h.size` and
`h.size + 1`) — so the old trailing commands are gone — and the last
statement of the pruned sequence, the one preceding the insertion point
taken from the pre-insertion sequence, is never Command-type. -/
theorem addStatement_prunes (h : Heap) (f : SQLFile) (sid : Nat) :
    (∃ inserted,
      (addStatement h f sid).2.statements =
        pruneTrailingCommands h f.statements ++ inserted ∧
      (inserted = [h.size, sid, h.size + 1] ∨ inserted = [h.size, sid] ∨
        inserted = [sid, h.size] ∨ inserted = [sid])) ∧
    (∀ lastId, (pruneTrailingCommands h f.statements).getLast? = some lastId →
      (h.get lastId).type ≠ .command) :=
  ⟨addStatement_statements_shape h f sid,
    pruneTrailingCommands_getLast_not_command h f.statements⟩

theorem addStatement_prunes_witness :
    (cmdHeap.get 0).type ≠ StatementType.command ∧
      (addStatement cmdHeap ⟨"t.sql", [0, 1], false⟩ 2).2.statements =
        pruneTrailingCommands cmdHeap [0, 1] ++ [3, 2, 4] := by
  refine ⟨(addStatement_prunes cmdHeap ⟨"t.sql", [0, 1], false⟩ 2).2 0
    (by decide), ?_⟩
  decide

/-! ### C3: the delimiter-context invariant over reachable states -/

lemma declaredDelimiter_non_command {st : Statement}
    (ht : st.type ≠ .command) : declaredDelimiter st = none := by
  rw [declaredDelimiter, if_neg]
  intro hcon
  exact ht hcon.1

lemma nextCtx_non_command {st : Statement} (ht : st.type ≠ .command)
    (d : String) : nextCtx st d = d := by
  rw [nextCtx, declaredDelimiter_non_command ht]
  rfl

lemma normalizeTrailer_type (st : Statement) :
    (normalizeTrailer st).type = st.type := rfl

lemma normalizeTrailer_delimiter (st : Statement) :
    (normalizeTrailer st).delimiter = st.delimiter := rfl

lemma ctxEnd_nil (h : Heap) (d : String) : ctxEnd h [] d = d := rfl

lemma ctxEnd_cons (h : Heap) (x : Nat) (l : List Nat) (d : String) :
    ctxEnd h (x :: l) d = ctxEnd h l (nextCtx (h.get x) d) := rfl

lemma ctxEnd_append (h : Heap) (l₁ l₂ : List Nat) (d : String) :
    ctxEnd h (l₁ ++ l₂) d = ctxEnd h l₂ (ctxEnd h l₁ d) := by
  induction l₁ generalizing d with
  | nil => rfl
  | cons x xs ih =>
    rw [List.cons_append, ctxEnd_cons, ctxEnd_cons, ih]

lemma ctxOk_nil (h : Heap) (d : String) : ctxOk h [] d := trivial

lemma ctxOk_cons (h : Heap) (x : Nat) (l : List Nat) (d : String) :
    ctxOk h (x :: l) d ↔
      ((h.get x).type = .command ∨ (h.get x).delimiter = d) ∧
        ctxOk h l (nextCtx (h.get x) d) := Iff.rfl

lemma ctxOk_append (h : Heap) (l₁ l₂ : List Nat) (d : String) :
    ctxOk h (l₁ ++ l₂) d ↔ ctxOk h l₁ d ∧ ctxOk h l₂ (ctxEnd h l₁ d) := by
  induction l₁ generalizing d with
  | nil =>
    rw [List.nil_append, ctxEnd_nil]
    exact ⟨fun hok => ⟨trivial, hok⟩, fun hok => hok.2⟩
  | cons x xs ih =>
    rw [List.cons_append, ctxOk_cons, ctxOk_cons, ctxEnd_cons, ih, and_assoc]

/-- Congruence: a heap change that preserves each listed cell's declared
delimiter preserves the end context. -/
lemma ctxEnd_pres {h h' : Heap} {l : List Nat}
    (hpres : ∀ x ∈ l, declaredDelimiter (h'.get x) = declaredDelimiter (h.get x)) :
    ∀ d, ctxEnd h' l d = ctxEnd h l d := by
  induction l with
  | nil => intro d; rfl
  | cons x xs ih =>
    intro d
    rw [ctxEnd_cons, ctxEnd_cons]
    have hx := hpres x (List.mem_cons_self x xs)
    rw [nextCtx, nextCtx, hx]
    exact ih (fun y hy => hpres y (List.mem_cons_of_mem x hy)) _

/-- Congruence: a heap change that preserves each listed cell's type,
delimiter and declared delimiter preserves the context invariant. -/
lemma ctxOk_pres {h h' : Heap} {l : List Nat}
    (hpres : ∀ x ∈ l, (h'.get x).type = (h.get x).type ∧
      (h'.get x).delimiter = (h.get x).delimiter ∧
      declaredDelimiter (h'.get x) = declaredDelimiter (h.get x)) :
    ∀ d, ctxOk h l d → ctxOk h' l d := by
  induction l with
  | nil => intro d _; trivial
  | cons x xs ih =>
    intro d hok
    rw [ctxOk_cons] at hok ⊢
    obtain ⟨ht, hd, hdecl⟩ := hpres x (List.mem_cons_self x xs)
    refine ⟨by rw [ht, hd]; exact hok.1, ?_⟩
    rw [nextCtx, hdecl, ← nextCtx]
    exact ih (fun y hy => hpres y (List.mem_cons_of_mem x hy)) _ hok.2

/-- In a context-correct list ending in a non-Command statement, that last
statement's delimiter is the end context. -/
lemma ctxOk_getLast (h : Heap) (l : List Nat) (x : Nat) :
    ∀ d, ctxOk h l d → l.getLast? = some x → (h.get x).type ≠ .command →
      (h.get x).delimiter = ctxEnd h l d := by
  induction l with
  | nil =>
    intro d _ hlast
    simp at hlast
  | cons y ys ih =>
    intro d hok hlast ht
    rw [ctxOk_cons] at hok
    cases ys with
    | nil =>
      have hxy : y = x := by simpa using hlast
      subst hxy
      rw [ctxEnd_cons, ctxEnd_nil, nextCtx_non_command ht]
      rcases hok.1 with hcmd | hdelim
      · exact absurd hcmd ht
      · exact hdelim
    | cons z zs =>
      have hlast' : (z :: zs).getLast? = some x := by
        rw [← hlast, List.getLast?_cons_cons]
      rw [ctxEnd_cons]
      exact ih _ hok.2 hlast' ht

/-- The pruned sequence is a prefix of the original. -/
lemma pruneTrailingCommands_prefix (h : Heap) (l : List Nat) :
    ∃ t, l = pruneTrailingCommands h l ++ t := by
  refine ⟨(l.reverse.takeWhile (fun sid => (h.get sid).type == .command)).reverse, ?_⟩
  rw [pruneTrailingCommands, ← List.reverse_append, List.takeWhile_append_dropWhile,
    List.reverse_reverse]

lemma ctxOk_agree {h h' : Heap} {l : List Nat}
    (hagree : ∀ x ∈ l, h'.get x = h.get x) :
    ∀ d, ctxOk h l d → ctxOk h' l d :=
  ctxOk_pres (fun x hx => by rw [hagree x hx]; exact ⟨rfl, rfl, rfl⟩)

lemma ctxEnd_agree {h h' : Heap} {l : List Nat}
    (hagree : ∀ x ∈ l, h'.get x = h.get x) :
    ∀ d, ctxEnd h' l d = ctxEnd h l d :=
  ctxEnd_pres (fun x hx => by rw [hagree x hx])

lemma nodup_append_singleton {l : List Nat} {a : Nat}
    (hnd : l.Nodup) (ha : a ∉ l) : (l ++ [a]).Nodup := by
  rw [List.nodup_append]
  refine ⟨hnd, List.nodup_singleton a, ?_⟩
  intro x hx hxa
  rw [List.mem_singleton] at hxa
  exact ha (hxa ▸ hx)

lemma nextCtx_mk_slash (db fp d : String) :
    nextCtx (makeDelimiterCommand "//" db fp) d = "//" := by
  rw [nextCtx, declaredDelimiter_mk_slash]
  rfl

lemma nextCtx_mk_semi (db fp d : String) :
    nextCtx (makeDelimiterCommand ";" db fp) d = ";" := by
  rw [nextCtx, declaredDelimiter_mk_semi]
  rfl

/-- Heap bookkeeping for the alloc-then-mutate pattern (non-compound
statement after a custom-delimiter region). -/
lemma heap_alloc_set (hh : Heap) (sid : Nat) (c st : Statement)
    (hvalid : sid < hh.size) :
    ((hh.alloc c).2.set sid st).get hh.size = c ∧
    ((hh.alloc c).2.set sid st).get sid = st ∧
    (∀ j, j ≠ sid → j < hh.size → ((hh.alloc c).2.set sid st).get j = hh.get j) ∧
    ((hh.alloc c).2.set sid st).size = hh.size + 1 := by
  have hs1 : sid < (hh.alloc c).2.size := by
    rw [Heap.size_alloc]
    omega
  have hne : sid ≠ hh.size := by omega
  refine ⟨?_, ?_, ?_, ?_⟩
  · rw [Heap.get_set_ne _ _ hne, Heap.get_alloc_size]
  · exact Heap.get_set_self _ _ hs1
  · intro j hj hjlt
    rw [Heap.get_set_ne _ _ (fun he => hj he.symm), Heap.get_alloc_of_lt _ _ hjlt]
  · rw [Heap.size_set, Heap.size_alloc]

/-- Heap bookkeeping for the mutate-then-alloc pattern (compound statement
added while a custom delimiter is already active). -/
lemma heap_set_alloc (hh : Heap) (sid : Nat) (st c : Statement)
    (hvalid : sid < hh.size) :
    ((hh.set sid st).alloc c).2.get sid = st ∧
    ((hh.set sid st).alloc c).2.get hh.size = c ∧
    (∀ j, j ≠ sid → j < hh.size → ((hh.set sid st).alloc c).2.get j = hh.get j) ∧
    ((hh.set sid st).alloc c).1 = hh.size ∧
    ((hh.set sid st).alloc c).2.size = hh.size + 1 := by
  have hss : (hh.set sid st).size = hh.size := Heap.size_set hh sid st
  have hlt1 : sid < (hh.set sid st).size := by
    rw [hss]
    omega
  refine ⟨?_, ?_, ?_, ?_, ?_⟩
  · rw [Heap.get_alloc_of_lt _ _ hlt1]
    exact Heap.get_set_self _ _ hvalid
  · have hbase := Heap.get_alloc_size (hh.set sid st) c
    rw [hss] at hbase
    exact hbase
  · intro j hj hjlt
    have hltj : j < (hh.set sid st).size := by
      rw [hss]
      omega
    rw [Heap.get_alloc_of_lt _ _ hltj]
    exact Heap.get_set_ne _ _ (fun he => hj he.symm)
  · rw [Heap.alloc_fst, hss]
  · rw [Heap.size_alloc, hss]

/-- The delimiter-transition tail of `AddStatement` preserves validity,
distinctness, and the delimiter-context invariant, provided it starts from a
context-correct pruned list whose end context is the supplied current
delimiter, and a fresh valid statement pointer. -/
lemma addStatementCore_invariant (hh : Heap) (fp : String) (p : List Nat)
    (sid : Nat) (cd db : String)
    (hvalP : ∀ x ∈ p, x < hh.size) (hndP : p.Nodup)
    (hokP : ctxOk hh p ";") (hcd : ctxEnd hh p ";" = cd)
    (hvalid : sid < hh.size) (hfreshP : sid ∉ p) :
    (∀ x ∈ (addStatementCore hh fp p sid cd db).2,
      x < (addStatementCore hh fp p sid cd db).1.size) ∧
    (addStatementCore hh fp p sid cd db).2.Nodup ∧
    ctxOk (addStatementCore hh fp p sid cd db).1
      (addStatementCore hh fp p sid cd db).2 ";" := by
  have hnmem : (hh.size : Nat) ∉ p := fun hmem => absurd (hvalP _ hmem) (by omega)
  by_cases hc1 : ((hh.get sid).compound = true ∧ cd = ";")
  · -- a compound statement opens a region: DELIMITER //, stmt, DELIMITER ;
    have hcore : addStatementCore hh fp p sid cd db =
        ((((hh.alloc (makeDelimiterCommand "//" db fp)).2.set sid
            (normalizeTrailer { hh.get sid with
              file := fp
              defaultDatabase := db
              delimiter := "//" })).alloc (makeDelimiterCommand ";" db fp)).2,
          ((p ++ [hh.size]) ++ [sid]) ++ [hh.size + 1]) := by
      simp only [addStatementCore]
      rw [if_pos hc1]
      simp only [Heap.alloc_fst,
        Heap.get_alloc_of_lt hh (makeDelimiterCommand "//" db fp) hvalid]
      rw [if_pos (by decide : ("//" : String) ≠ ";")]
      simp [Heap.alloc_fst, Heap.size_set, Heap.size_alloc]
    rw [hcore]
    obtain ⟨hg1, hg2, hg3, hg4, -⟩ := heap_alloc_set_alloc hh sid
      (makeDelimiterCommand "//" db fp) (makeDelimiterCommand ";" db fp)
      (normalizeTrailer { hh.get sid with
        file := fp
        defaultDatabase := db
        delimiter := "//" }) hvalid
    have hagreeP := fun x hx =>
      hg4 x (fun he => hfreshP (he ▸ hx)) (hvalP x hx)
    have hsz : (((hh.alloc (makeDelimiterCommand "//" db fp)).2.set sid
        (normalizeTrailer { hh.get sid with
          file := fp
          defaultDatabase := db
          delimiter := "//" })).alloc (makeDelimiterCommand ";" db fp)).2.size =
        hh.size + 2 := by
      rw [Heap.size_alloc, Heap.size_set, Heap.size_alloc]
    refine ⟨?_, ?_, ?_⟩
    · intro x hx
      rw [hsz]
      simp only [List.mem_append, List.mem_singleton] at hx
      rcases hx with ((hx | rfl) | rfl) | rfl
      · have := hvalP x hx
        omega
      · omega
      · omega
      · omega
    · have h2 : sid ∉ p ++ [hh.size] := by
        simp only [List.mem_append, List.mem_singleton]
        rintro (hmem | rfl)
        · exact hfreshP hmem
        · omega
      have h3 : hh.size + 1 ∉ (p ++ [hh.size]) ++ [sid] := by
        simp only [List.mem_append, List.mem_singleton]
        rintro ((hmem | hx) | hx)
        · have := hvalP _ hmem
          omega
        · omega
        · omega
      exact nodup_append_singleton (nodup_append_singleton
        (nodup_append_singleton hndP hnmem) h2) h3
    · rw [List.append_assoc, List.append_assoc, ctxOk_append]
      constructor
      · exact ctxOk_agree hagreeP ";" hokP
      · rw [ctxEnd_agree hagreeP, hcd, hc1.2]
        simp only [List.cons_append, List.nil_append]
        rw [ctxOk_cons, hg1, nextCtx_mk_slash]
        refine ⟨Or.inl rfl, ?_⟩
        rw [ctxOk_cons, hg2]
        refine ⟨Or.inr rfl, ?_⟩
        rw [ctxOk_cons, hg3]
        exact ⟨Or.inl rfl, trivial⟩
  · by_cases hc2 : (¬(hh.get sid).compound = true ∧ cd ≠ ";")
    · -- a non-compound statement closes a region: DELIMITER ;, stmt
      have hcore : addStatementCore hh fp p sid cd db =
          ((hh.alloc (makeDelimiterCommand ";" db fp)).2.set sid
              (normalizeTrailer { hh.get sid with
                file := fp
                defaultDatabase := db
                delimiter := ";" }),
            (p ++ [hh.size]) ++ [sid]) := by
        simp only [addStatementCore]
        rw [if_neg hc1, if_pos hc2]
        simp only [Heap.alloc_fst,
          Heap.get_alloc_of_lt hh (makeDelimiterCommand ";" db fp) hvalid]
        rw [if_neg (by simp : ¬(";" : String) ≠ ";")]
      rw [hcore]
      obtain ⟨hg1, hg2, hg3, hg4⟩ := heap_alloc_set hh sid
        (makeDelimiterCommand ";" db fp)
        (normalizeTrailer { hh.get sid with
          file := fp
          defaultDatabase := db
          delimiter := ";" }) hvalid
      have hagreeP := fun x hx =>
        hg3 x (fun he => hfreshP (he ▸ hx)) (hvalP x hx)
      refine ⟨?_, ?_, ?_⟩
      · intro x hx
        rw [hg4]
        simp only [List.mem_append, List.mem_singleton] at hx
        rcases hx with (hx | rfl) | rfl
        · have := hvalP x hx
          omega
        · omega
        · omega
      · have h2 : sid ∉ p ++ [hh.size] := by
          simp only [List.mem_append, List.mem_singleton]
          rintro (hmem | rfl)
          · exact hfreshP hmem
          · omega
        exact nodup_append_singleton (nodup_append_singleton hndP hnmem) h2
      · rw [List.append_assoc, ctxOk_append]
        constructor
        · exact ctxOk_agree hagreeP ";" hokP
        · rw [ctxEnd_agree hagreeP, hcd]
          simp only [List.cons_append, List.nil_append]
          rw [ctxOk_cons, hg1, nextCtx_mk_semi]
          refine ⟨Or.inl rfl, ?_⟩
          rw [ctxOk_cons, hg2]
          exact ⟨Or.inr rfl, trivial⟩
    · -- no transition command needed before stmt
      by_cases hcd2 : cd ≠ ";"
      · -- compound statement inside an already-open region: close it after
        have hcore : addStatementCore hh fp p sid cd db =
            (((hh.set sid (normalizeTrailer { hh.get sid with
                file := fp
                defaultDatabase := db
                delimiter := cd })).alloc (makeDelimiterCommand ";" db fp)).2,
              (p ++ [sid]) ++ [hh.size]) := by
          simp only [addStatementCore]
          rw [if_neg hc1, if_neg hc2, if_pos hcd2]
          simp [Heap.alloc_fst, Heap.size_set]
        rw [hcore]
        obtain ⟨hg1, hg2, hg3, -, hg5⟩ := heap_set_alloc hh sid
          (normalizeTrailer { hh.get sid with
            file := fp
            defaultDatabase := db
            delimiter := cd })
          (makeDelimiterCommand ";" db fp) hvalid
        have hagreeP := fun x hx =>
          hg3 x (fun he => hfreshP (he ▸ hx)) (hvalP x hx)
        refine ⟨?_, ?_, ?_⟩
        · intro x hx
          rw [hg5]
          simp only [List.mem_append, List.mem_singleton] at hx
          rcases hx with (hx | rfl) | rfl
          · have := hvalP x hx
            omega
          · omega
          · omega
        · have h2 : hh.size ∉ p ++ [sid] := by
            simp only [List.mem_append, List.mem_singleton]
            rintro (hmem | hx)
            · have := hvalP _ hmem
              omega
            · omega
          exact nodup_append_singleton (nodup_append_singleton hndP hfreshP) h2
        · rw [List.append_assoc, ctxOk_append]
          constructor
          · exact ctxOk_agree hagreeP ";" hokP
          · rw [ctxEnd_agree hagreeP, hcd]
            simp only [List.cons_append, List.nil_append]
            rw [ctxOk_cons, hg1]
            refine ⟨Or.inr rfl, ?_⟩
            rw [ctxOk_cons, hg2]
            exact ⟨Or.inl rfl, trivial⟩
      · -- default context, non-compound statement: plain append
        have hcore : addStatementCore hh fp p sid cd db =
            (hh.set sid (normalizeTrailer { hh.get sid with
                file := fp
                defaultDatabase := db
                delimiter := cd }),
              p ++ [sid]) := by
          simp only [addStatementCore]
          rw [if_neg hc1, if_neg hc2, if_neg hcd2]
        rw [hcore]
        have hagreeP := fun x (hx : x ∈ p) =>
          Heap.get_set_ne hh (normalizeTrailer { hh.get sid with
            file := fp
            defaultDatabase := db
            delimiter := cd })
            (fun (he : sid = x) => hfreshP (show sid ∈ p by rw [he]; exact hx))
        refine ⟨?_, ?_, ?_⟩
        · intro x hx
          rw [Heap.size_set]
          simp only [List.mem_append, List.mem_singleton] at hx
          rcases hx with hx | rfl
          · exact hvalP x hx
          · omega
        · exact nodup_append_singleton hndP hfreshP
        · rw [ctxOk_append]
          constructor
          · exact ctxOk_agree hagreeP ";" hokP
          · rw [ctxEnd_agree hagreeP, hcd]
            rw [ctxOk_cons, Heap.get_set_self _ _ hvalid]
            exact ⟨Or.inr rfl, trivial⟩

/-- `AddStatement` preserves validity, distinctness and the delimiter-context
invariant when handed a fresh valid statement pointer. -/
lemma addStatement_invariant (h : Heap) (f : SQLFile) (sid : Nat)
    (hval : ∀ x ∈ f.statements, x < h.size) (hnd : f.statements.Nodup)
    (hok : ctxOk h f.statements ";")
    (hvalid : sid < h.size) (hfresh : sid ∉ f.statements) :
    (∀ x ∈ (addStatement h f sid).2.statements,
      x < (addStatement h f sid).1.size) ∧
    (addStatement h f sid).2.statements.Nodup ∧
    ctxOk (addStatement h f sid).1 (addStatement h f sid).2.statements ";" := by
  obtain ⟨t, hdec⟩ := pruneTrailingCommands_prefix h f.statements
  have hvalP : ∀ x ∈ pruneTrailingCommands h f.statements, x < h.size :=
    fun x hx => hval x (by rw [hdec]; exact List.mem_append_left t hx)
  have hndP : (pruneTrailingCommands h f.statements).Nodup := by
    rw [hdec] at hnd
    exact hnd.of_append_left
  have hokP : ctxOk h (pruneTrailingCommands h f.statements) ";" := by
    rw [hdec] at hok
    exact ((ctxOk_append h _ t ";").mp hok).1
  have hfreshP : sid ∉ pruneTrailingCommands h f.statements :=
    fun hx => hfresh (by rw [hdec]; exact List.mem_append_left t hx)
  cases hlast : (pruneTrailingCommands h f.statements).getLast? with
  | none =>
    have hred : addStatement h f sid =
        ((addStatementCore h f.filePath (pruneTrailingCommands h f.statements)
            sid ";" "").1,
          { f with
            statements := (addStatementCore h f.filePath
              (pruneTrailingCommands h f.statements) sid ";" "").2
            dirty := true }) := by
      simp only [addStatement, hlast]
    rw [hred]
    have hpnil : pruneTrailingCommands h f.statements = [] :=
      List.getLast?_eq_none_iff.mp hlast
    have hcd : ctxEnd h (pruneTrailingCommands h f.statements) ";" = ";" := by
      rw [hpnil]
      rfl
    exact addStatementCore_invariant h f.filePath _ sid ";" "" hvalP hndP hokP
      hcd hvalid hfreshP
  | some lastId =>
    have hmemLast : lastId ∈ pruneTrailingCommands h f.statements :=
      List.mem_of_getLast?_eq_some hlast
    have hlastval : lastId < h.size := hvalP lastId hmemLast
    have hlastT : (h.get lastId).type ≠ .command :=
      pruneTrailingCommands_getLast_not_command h f.statements lastId hlast
    have hpresP : ∀ x ∈ pruneTrailingCommands h f.statements,
        ((h.set lastId (normalizeTrailer (h.get lastId))).get x).type =
          (h.get x).type ∧
        ((h.set lastId (normalizeTrailer (h.get lastId))).get x).delimiter =
          (h.get x).delimiter ∧
        declaredDelimiter ((h.set lastId (normalizeTrailer (h.get lastId))).get x) =
          declaredDelimiter (h.get x) := by
      intro x hx
      by_cases hxl : x = lastId
      · subst hxl
        rw [Heap.get_set_self _ _ hlastval]
        refine ⟨normalizeTrailer_type _, normalizeTrailer_delimiter _, ?_⟩
        rw [declaredDelimiter_non_command hlastT,
          declaredDelimiter_non_command
            (show (normalizeTrailer (h.get x)).type ≠ .command by
              rw [normalizeTrailer_type]
              exact hlastT)]
      · rw [Heap.get_set_ne _ _ (fun he => hxl he.symm)]
        exact ⟨rfl, rfl, rfl⟩
    have hokPH : ctxOk (h.set lastId (normalizeTrailer (h.get lastId)))
        (pruneTrailingCommands h f.statements) ";" := ctxOk_pres hpresP ";" hokP
    have hcdH : ctxEnd (h.set lastId (normalizeTrailer (h.get lastId)))
        (pruneTrailingCommands h f.statements) ";" =
        (h.get lastId).delimiter := by
      rw [ctxEnd_pres (fun x hx => (hpresP x hx).2.2)]
      exact (ctxOk_getLast h _ lastId ";" hokP hlast hlastT).symm
    have hred : addStatement h f sid =
        ((addStatementCore (h.set lastId (normalizeTrailer (h.get lastId)))
            f.filePath (pruneTrailingCommands h f.statements) sid
            (h.get lastId).delimiter (h.get lastId).defaultDatabase).1,
          { f with
            statements := (addStatementCore
              (h.set lastId (normalizeTrailer (h.get lastId))) f.filePath
              (pruneTrailingCommands h f.statements) sid
              (h.get lastId).delimiter (h.get lastId).defaultDatabase).2
            dirty := true }) := by
      simp only [addStatement, hlast]
    rw [hred]
    have hvalPH : ∀ x ∈ pruneTrailingCommands h f.statements,
        x < (h.set lastId (normalizeTrailer (h.get lastId))).size := by
      intro x hx
      rw [Heap.size_set]
      exact hvalP x hx
    have hvalidH : sid < (h.set lastId (normalizeTrailer (h.get lastId))).size := by
      rw [Heap.size_set]
      exact hvalid
    exact addStatementCore_invariant _ f.filePath _ sid _ _ hvalPH hndP hokPH
      hcdH hvalidH hfreshP

lemma statementIndex_decomp {f : SQLFile} {sid : Nat} {i : Nat}
    (hidx : statementIndex f sid = some i) :
    i < f.statements.length ∧
      f.statements = f.statements.take i ++ [sid] ++ f.statements.drop (i + 1) := by
  rw [statementIndex, List.findIdx?_eq_some_iff_getElem] at hidx
  obtain ⟨hlen, hbeq, -⟩ := hidx
  have hsid : f.statements[i] = sid := by simpa using hbeq
  refine ⟨hlen, ?_⟩
  conv_lhs => rw [← List.take_append_drop i f.statements]
  rw [List.drop_eq_getElem_cons hlen, hsid]
  simp

/-- `EditStatementText` on a non-Command statement preserves validity,
distinctness and the delimiter-context invariant. -/
lemma editStatementText_invariant (h : Heap) (f : SQLFile) (sid : Nat)
    (newText : String) (compound : Bool) (h' : Heap) (f' : SQLFile)
    (hval : ∀ x ∈ f.statements, x < h.size) (hnd : f.statements.Nodup)
    (hok : ctxOk h f.statements ";")
    (ht : (h.get sid).type ≠ .command)
    (heq : editStatementText h f sid newText compound = some (h', f')) :
    (∀ x ∈ f'.statements, x < h'.size) ∧ f'.statements.Nodup ∧
      ctxOk h' f'.statements ";" := by
  rw [editStatementText] at heq
  cases hidx : statementIndex { f with dirty := true } sid with
  | none =>
    rw [hidx] at heq
    exact absurd heq (by simp)
  | some i =>
    simp only [hidx] at heq
    have hidx' : statementIndex f sid = some i := hidx
    obtain ⟨hlen, hdec⟩ := statementIndex_decomp hidx'
    have hmem : sid ∈ f.statements := by
      rw [hdec]
      simp
    have hsidval : sid < h.size := hval sid hmem
    by_cases hfast : ((h.get sid).delimiter ≠ ";" ∨ compound = false)
    · rw [if_pos hfast] at heq
      have hinj := Option.some.inj heq
      have hh' := congrArg Prod.fst hinj
      have hf' := congrArg Prod.snd hinj
      simp only at hh' hf'
      subst hh'
      refine ⟨?_, ?_, ?_⟩
      · intro x hx
        rw [← hf'] at hx
        rw [Heap.size_set]
        exact hval x hx
      · rw [← hf']
        exact hnd
      · rw [← hf']
        refine ctxOk_pres ?_ ";" hok
        intro x hx
        by_cases hxs : x = sid
        · subst hxs
          rw [Heap.get_set_self _ _ hsidval]
          refine ⟨rfl, rfl, ?_⟩
          simp only [declaredDelimiter_non_command ht]
          exact declaredDelimiter_non_command ht
        · rw [Heap.get_set_ne _ _ (fun he => hxs he.symm)]
          exact ⟨rfl, rfl, rfl⟩
    · rw [if_neg hfast] at heq
      push_neg at hfast
      obtain ⟨hdelim, hcomp⟩ := hfast
      have hinj := Option.some.inj heq
      have hh' := congrArg Prod.fst hinj
      have hf' := congrArg Prod.snd hinj
      simp only at hh' hf'
      subst hh'
      obtain ⟨hg1, hg2, hg3, hg4, hb1⟩ := heap_alloc_set_alloc h sid
        (makeDelimiterCommand "//" (h.get sid).defaultDatabase f.filePath)
        (makeDelimiterCommand ";" (h.get sid).defaultDatabase f.filePath)
        { file := (h.get sid).file
          text := newText ++ "//\n"
          type := (h.get sid).type
          delimiter := "//"
          compound := compound
          defaultDatabase := (h.get sid).defaultDatabase } hsidval
      simp only [Heap.alloc_fst, Heap.size_set, Heap.size_alloc] at hf'
      -- distinctness facts about the decomposition
      rw [hdec] at hnd hok
      rw [List.nodup_append, List.nodup_append] at hnd
      obtain ⟨⟨hndA, -, hdisAS⟩, hndB, hdisASB⟩ := hnd
      have hsidA : sid ∉ f.statements.take i := by
        intro hmem'
        exact hdisAS hmem' (List.mem_singleton_self sid)
      have hsidB : sid ∉ f.statements.drop (i + 1) := by
        intro hmem'
        exact hdisASB (List.mem_append_right _ (List.mem_singleton_self sid)) hmem'
      have hvalA : ∀ x ∈ f.statements.take i, x < h.size := by
        intro x hx
        refine hval x ?_
        rw [hdec]
        exact List.mem_append_left _ (List.mem_append_left _ hx)
      have hvalB : ∀ x ∈ f.statements.drop (i + 1), x < h.size := by
        intro x hx
        refine hval x ?_
        rw [hdec]
        exact List.mem_append_right _ hx
      have hagreeA := fun x hx =>
        hg4 x (fun he => hsidA (he ▸ hx)) (hvalA x hx)
      have hagreeB := fun x hx =>
        hg4 x (fun he => hsidB (he ▸ hx)) (hvalB x hx)
      -- the original context decomposition
      rw [ctxOk_append, ctxOk_append] at hok
      obtain ⟨⟨hokA, hokS⟩, hokB⟩ := hok
      rw [ctxOk_cons] at hokS
      have hdA : ctxEnd h (f.statements.take i) ";" = ";" := by
        rcases hokS.1 with hcmd | hdel
        · exact absurd hcmd ht
        · rw [← hdel, hdelim]
      have hctxS : ctxEnd h (f.statements.take i ++ [sid]) ";" = ";" := by
        rw [ctxEnd_append, ctxEnd_cons, ctxEnd_nil, nextCtx_non_command ht, hdA]
      rw [hctxS] at hokB
      refine ⟨?_, ?_, ?_⟩
      · intro x hx
        rw [← hf'] at hx
        simp only [Heap.size_alloc, Heap.size_set]
        simp only [List.mem_append, List.mem_cons, List.mem_singleton,
          List.not_mem_nil, or_false] at hx
        rcases hx with (hx | rfl | rfl | rfl) | hx
        · have := hvalA x hx
          omega
        · omega
        · omega
        · omega
        · have := hvalB x hx
          omega
      · rw [← hf']
        rw [List.nodup_append, List.nodup_append]
        refine ⟨⟨hndA, ?_, ?_⟩, hndB, ?_⟩
        · simp only [List.nodup_cons, List.mem_cons, List.mem_singleton,
            List.not_mem_nil, or_false, List.nodup_nil, and_true]
          refine ⟨?_, ?_, not_false⟩
          · omega
          · omega
        · intro x hx hx3
          simp only [List.mem_cons, List.mem_singleton, List.not_mem_nil,
            or_false] at hx3
          have hxval := hvalA x hx
          rcases hx3 with rfl | rfl | rfl
          · omega
          · exact hsidA hx
          · omega
        · intro x hx hxB
          simp only [List.mem_append, List.mem_cons, List.mem_singleton,
            List.not_mem_nil, or_false] at hx
          have hxval := hvalB x hxB
          rcases hx with hx | rfl | rfl | rfl
          · exact hdisASB (List.mem_append_left _ hx) hxB
          · omega
          · exact hsidB hxB
          · omega
      · rw [← hf']
        rw [ctxOk_append, ctxOk_append]
        refine ⟨⟨ctxOk_agree hagreeA ";" hokA, ?_⟩, ?_⟩
        · rw [ctxEnd_agree hagreeA, hdA]
          rw [ctxOk_cons, hg1, nextCtx_mk_slash]
          refine ⟨Or.inl rfl, ?_⟩
          rw [ctxOk_cons, hg2]
          refine ⟨Or.inr rfl, ?_⟩
          rw [ctxOk_cons, hg3]
          exact ⟨Or.inl rfl, trivial⟩
        · rw [ctxEnd_append, ctxEnd_agree hagreeA, hdA]
          have hblock : ctxEnd (((h.alloc (makeDelimiterCommand "//"
              (h.get sid).defaultDatabase f.filePath)).2.set sid
              { file := (h.get sid).file
                text := newText ++ "//\n"
                type := (h.get sid).type
                delimiter := "//"
                compound := compound
                defaultDatabase := (h.get sid).defaultDatabase }).alloc
              (makeDelimiterCommand ";" (h.get sid).defaultDatabase
                f.filePath)).2
              [h.size, sid, h.size + 1] ";" = ";" := by
            rw [ctxEnd_cons, ctxEnd_cons, ctxEnd_cons, ctxEnd_nil, hg3,
              nextCtx_mk_semi]
          rw [hblock]
          exact ctxOk_agree hagreeB ";" hokB

/-- `RemoveStatement` of a non-Command statement preserves validity,
distinctness and the delimiter-context invariant. -/
lemma removeStatement_invariant (h : Heap) (f : SQLFile) (sid : Nat)
    (h' : Heap) (f' : SQLFile)
    (hval : ∀ x ∈ f.statements, x < h.size) (hnd : f.statements.Nodup)
    (hok : ctxOk h f.statements ";")
    (ht : (h.get sid).type ≠ .command)
    (heq : removeStatement h f sid = some (h', f')) :
    (∀ x ∈ f'.statements, x < h'.size) ∧ f'.statements.Nodup ∧
      ctxOk h' f'.statements ";" := by
  rw [removeStatement] at heq
  cases hidx : statementIndex f sid with
  | none =>
    rw [hidx] at heq
    exact absurd heq (by simp)
  | some i =>
    simp only [hidx] at heq
    have hinj := Option.some.inj heq
    have hh' := congrArg Prod.fst hinj
    have hf' := congrArg Prod.snd hinj
    simp only at hh' hf'
    subst hh'
    obtain ⟨hlen, hdec⟩ := statementIndex_decomp hidx
    have hstmts : f'.statements =
        f.statements.take i ++ f.statements.drop (i + 1) := by
      rw [← hf']
      simp [List.eraseIdx_eq_take_drop_succ]
    rw [hdec] at hnd hok
    rw [List.nodup_append, List.nodup_append] at hnd
    obtain ⟨⟨hndA, -, hdisAS⟩, hndB, hdisASB⟩ := hnd
    rw [ctxOk_append, ctxOk_append] at hok
    obtain ⟨⟨hokA, hokS⟩, hokB⟩ := hok
    rw [ctxOk_cons] at hokS
    have hctxS : ctxEnd h (f.statements.take i ++ [sid]) ";" =
        ctxEnd h (f.statements.take i) ";" := by
      rw [ctxEnd_append, ctxEnd_cons, ctxEnd_nil, nextCtx_non_command ht]
    rw [hctxS] at hokB
    refine ⟨?_, ?_, ?_⟩
    · intro x hx
      rw [hstmts] at hx
      refine hval x ?_
      rw [hdec]
      rcases List.mem_append.mp hx with hx | hx
      · exact List.mem_append_left _ (List.mem_append_left _ hx)
      · exact List.mem_append_right _ hx
    · rw [hstmts, List.nodup_append]
      refine ⟨hndA, hndB, ?_⟩
      intro x hx hxB
      exact hdisASB (List.mem_append_left _ hx) hxB
    · rw [hstmts, ctxOk_append]
      exact ⟨hokA, hokB⟩

/-- The editor invariant: every state reachable from an empty file has only
valid, distinct statement ids and satisfies the delimiter-context
invariant for its non-Command statements. -/
lemma reach_invariant (h : Heap) (f : SQLFile) (hr : Reach h f) :
    (∀ x ∈ f.statements, x < h.size) ∧ f.statements.Nodup ∧
      ctxOk h f.statements ";" := by
  induction hr with
  | init h path =>
    exact ⟨by simp, List.nodup_nil, trivial⟩
  | alloc st hr ih =>
    obtain ⟨hval, hnd, hok⟩ := ih
    refine ⟨?_, hnd, ?_⟩
    · intro x hx
      rw [Heap.size_alloc]
      have := hval x hx
      omega
    · exact ctxOk_agree (fun x hx => Heap.get_alloc_of_lt _ _ (hval x hx)) ";" hok
  | add sid hr hvalid hfresh heq ih =>
    obtain ⟨hval, hnd, hok⟩ := ih
    have hinv := addStatement_invariant _ _ sid hval hnd hok hvalid hfresh
    rw [heq] at hinv
    exact hinv
  | edit sid newText compound hr ht heq ih =>
    obtain ⟨hval, hnd, hok⟩ := ih
    exact editStatementText_invariant _ _ sid newText compound _ _ hval hnd hok
      ht heq
  | remove sid hr ht heq ih =>
    obtain ⟨hval, hnd, hok⟩ := ih
    exact removeStatement_invariant _ _ sid _ _ hval hnd hok ht heq

/-- C3 counterexample: read literally over every statement, the invariant
fails in a reachable state — after one compound `AddStatement` into an empty
file, the leading `DELIMITER //` command statement itself carries
`Delimiter = "\x00"`, not the `";"` demanded for a statement with no
preceding delimiter-setting command. -/
theorem ctxOkAll_counterexample :
    ¬ (∀ (h : Heap) (f : SQLFile), Reach h f → ctxOkAll h f.statements ";") := by
  intro hall
  have hreach : Reach reachedHeapB reachedFileB :=
    Reach.add 0 (Reach.init fixtureHeap "t.sql") (by decide) (by decide) rfl
  exact absurd (hall _ _ hreach) (by decide)

/-- C3 (amended): in every state reachable from an empty SQLFile by
`AddStatement` calls on fresh valid statements and by `EditStatementText` /
`RemoveStatement` calls whose target is not a Command-type statement, every
non-Command statement's `Delimiter` equals the terminator declared by the
nearest preceding Command-type statement that sets the delimiter, or `";"`
if no such command precedes it. -/
theorem ctxOk_reachable (h : Heap) (f : SQLFile) (hr : Reach h f) :
    ctxOk h f.statements ";" :=
  (reach_invariant h f hr).2.2

theorem ctxOk_reachable_witness :
    ctxOk reachedHeapB reachedFileB.statements ";" := by
  have hreach : Reach reachedHeapB reachedFileB :=
    Reach.add 0 (Reach.init fixtureHeap "t.sql") (by decide) (by decide) rfl
  exact ctxOk_reachable _ _ hreach

end Skeema
